import Mathlib

/-!
Shallow embedding of the forecasting engine in `src/utils/forecasting.ts` of
the Price-Pulse_Reader repository.

Modelling conventions:
* JS numbers are modelled by `ℚ`; `parseFloat(x.toFixed(2))` is `round2`
  (round half up at two decimal places).
* ISO date strings are modelled by day numbers (`ℕ`, days since 1970-01-01,
  which was a Thursday); the lexicographic order on ISO strings coincides
  with the order on day numbers, and `Date.getDay()` of day `n` is
  `(n + 4) % 7`.
* A function that `throw`s is modelled as returning `Option`, with `none`
  for the thrown `InsufficientDataError`.
* JS `arr.slice(-k)` is `sliceNegLast` (note `-0 === 0`, so `slice(-0)`
  yields the whole array).
-/

namespace PricePulse

/-- JS `parseFloat(x.toFixed(2))`: round to 2 decimal places, half up. -/
def round2 (x : ℚ) : ℚ := (Int.floor (x * 100 + 1/2) : ℚ) / 100

/-- The `ForecastingModel` enum of the source. -/
inductive ForecastingModel where
  | movingAverage
  | exponentialSmoothing
  | arima
deriving DecidableEq, Repr, Inhabited

/-- The fields of `StockDataPoint` the forecasting engine reads
(`d.date` and `d.close`; the other fields are never consulted). -/
structure StockDataPoint where
  date : ℕ
  close : ℚ
deriving DecidableEq, Repr

/-- The `PredictionResult` record of the source. -/
structure PredictionResult where
  date : ℕ
  actual : Option ℚ
  predicted : ℚ
  modelName : ForecastingModel
deriving DecidableEq, Repr

/-- Default used for out-of-range list reads of results. -/
def noResult : PredictionResult :=
  { date := 0, actual := none, predicted := 0, modelName := .movingAverage }

/-- JS `arr.reduce((sum, val) => sum + val, 0)`. -/
def listSum (l : List ℚ) : ℚ := l.foldl (· + ·) 0

/-- JS `arr.reduce(...) / arr.length`. -/
def listMean (l : List ℚ) : ℚ := listSum l / (l.length : ℚ)

/-- JS `arr.slice(-k)`: the last `k` elements; `slice(-0)` is `slice(0)`,
the whole array. -/
def sliceNegLast (l : List ℚ) (k : ℕ) : List ℚ :=
  if k = 0 then l else l.drop (l.length - k)

/-! ### Business-day calendar (`getNextBusinessDay`) -/

/-- JS `Date.getDay()` for day number `n` (0 = Sunday .. 6 = Saturday). -/
def dayOfWeek (n : ℕ) : ℕ := (n + 4) % 7

/-- Monday-Friday test (`dayOfWeek !== 0 && dayOfWeek !== 6`). -/
def isBusinessDay (n : ℕ) : Bool := dayOfWeek n != 0 && dayOfWeek n != 6

/-- One round of the source's `while` loop: advance day by day until the
next business day is reached.  From any day a business day occurs within
three days (non-business days come only in Saturday-Sunday pairs), so the
day-by-day search is this three-way case split. -/
def nextBusinessDay1 (d : ℕ) : ℕ :=
  if isBusinessDay (d + 1) then d + 1
  else if isBusinessDay (d + 2) then d + 2
  else d + 3

/-- Source `getNextBusinessDay(lastDateStr, daysToAdd)`: the source loop counts
`daysToAdd` business days one after the other. -/
def getNextBusinessDay (lastDate : ℕ) : ℕ → ℕ
  | 0 => lastDate
  | k + 1 => nextBusinessDay1 (getNextBusinessDay lastDate k)

/-! ### Moving-average forecaster -/

/-- Backtest loop of `movingAveragePredict`: for `i` from `windowSize` to
`data.length - 1`, predict the mean of `closePrices.slice(i - windowSize, i)`. -/
def maBacktest (closePrices : List ℚ) (dates : List ℕ) (w : ℕ) :
    List PredictionResult :=
  (List.range' w (closePrices.length - w)).map fun i =>
    { date := dates.getD i 0,
      actual := some (closePrices.getD i 0),
      predicted := round2 (listMean ((closePrices.drop (i - w)).take w)),
      modelName := .movingAverage }

/-- Forecast loop of `movingAveragePredict`: `fuel` iterations remain, `i`
iterations are done, `window` is the current `lastPredictions` array.
Each step emits the rounded window mean, then shifts the window and pushes
the rounded prediction. -/
def maForecastLoop (lastDate : ℕ) : ℕ → ℕ → List ℚ → List PredictionResult
  | 0, _, _ => []
  | fuel + 1, i, window =>
    let prediction := round2 (listMean window)
    { date := getNextBusinessDay lastDate (i + 1),
      actual := none,
      predicted := prediction,
      modelName := .movingAverage }
      :: maForecastLoop lastDate fuel (i + 1) (window.tail ++ [prediction])

/-- Source `movingAveragePredict(data, windowSize, forecastDays)`. -/
def movingAveragePredict (data : List StockDataPoint) (windowSize forecastDays : ℕ) :
    Option (List PredictionResult) :=
  if data.length < windowSize then none
  else
    let closePrices := data.map (·.close)
    let dates := data.map (·.date)
    some (maBacktest closePrices dates windowSize ++
      maForecastLoop (dates.getD (dates.length - 1) 0) forecastDays 0
        (sliceNegLast closePrices windowSize))

/-! ### Exponential-smoothing forecaster -/

/-- The `forecast` variable of `exponentialSmoothingPredict` after `i`
iterations of the backtest loop: seeded with `closePrices[0]` and updated
as `forecast = alpha * closePrices[i-1] + (1 - alpha) * forecast`. -/
def esF (alpha : ℚ) (c : List ℚ) : ℕ → ℚ
  | 0 => c.getD 0 0
  | i + 1 => alpha * c.getD i 0 + (1 - alpha) * esF alpha c i

/-- Forecast loop of `exponentialSmoothingPredict`: carries the unrounded
`forecast` and the rounded `lastActual`. -/
def esForecastLoop (alpha : ℚ) (lastDate : ℕ) :
    ℕ → ℕ → ℚ → ℚ → List PredictionResult
  | 0, _, _, _ => []
  | fuel + 1, i, forecast, lastActual =>
    let f := alpha * lastActual + (1 - alpha) * forecast
    let prediction := round2 f
    { date := getNextBusinessDay lastDate (i + 1),
      actual := none,
      predicted := prediction,
      modelName := .exponentialSmoothing }
      :: esForecastLoop alpha lastDate fuel (i + 1) f prediction

/-- Backtest loop of `exponentialSmoothingPredict`: for `i` from 1 to
`data.length - 1`, the updated `forecast` is `esF alpha closePrices i`. -/
def esBacktest (alpha : ℚ) (closePrices : List ℚ) (dates : List ℕ) :
    List PredictionResult :=
  (List.range' 1 (closePrices.length - 1)).map fun i =>
    { date := dates.getD i 0,
      actual := some (closePrices.getD i 0),
      predicted := round2 (esF alpha closePrices i),
      modelName := .exponentialSmoothing }

/-- Source `exponentialSmoothingPredict(data, alpha, forecastDays)`. -/
def exponentialSmoothingPredict (data : List StockDataPoint) (alpha : ℚ)
    (forecastDays : ℕ) : Option (List PredictionResult) :=
  if data.length < 2 then none
  else
    let closePrices := data.map (·.close)
    let dates := data.map (·.date)
    some (esBacktest alpha closePrices dates
      ++ esForecastLoop alpha (dates.getD (dates.length - 1) 0) forecastDays 0
          (esF alpha closePrices (data.length - 1))
          (closePrices.getD (closePrices.length - 1) 0))

/-! ### Simplified ARIMA forecaster -/

/-- One differencing pass:
`diffPrices.slice(1).map((val, idx) => val - diffPrices[idx])`. -/
def diffOnce (l : List ℚ) : List ℚ := List.zipWith (fun a b => b - a) l l.tail

/-- Applies `d` differencing passes to the close prices. -/
def diffN : ℕ → List ℚ → List ℚ
  | 0, l => l
  | d + 1, l => diffOnce (diffN d l)

/-- AR component of the backtest loop at diff index `i`:
`for j in [0, p): arComponent += (1/p) * diffPrices[i - j - 1]`. -/
def arComp (p : ℕ) (diff : List ℚ) (i : ℕ) : ℚ :=
  (List.range p).foldl (fun s j => s + (1 / (p : ℚ)) * diff.getD (i - j - 1) 0) 0

/-- MA component: `for j in [0, min q errors.length):
maComponent += (1/q) * errors[errors.length - j - 1]`. -/
def maComp (q : ℕ) (errors : List ℚ) : ℚ :=
  (List.range (min q errors.length)).foldl
    (fun s j => s + (1 / (q : ℚ)) * errors.getD (errors.length - j - 1) 0) 0

/-- The two arrays grown by the ARIMA backtest loop. -/
structure ArimaBt where
  errors : List ℚ
  predictions : List ℚ
deriving DecidableEq, Repr

/-- One iteration of the ARIMA backtest loop at diff index `i`. -/
def arimaBtStep (p q : ℕ) (diff : List ℚ) (st : ArimaBt) (i : ℕ) : ArimaBt :=
  let prediction := arComp p diff i + maComp q st.errors
  { errors := st.errors ++ [diff.getD i 0 - prediction],
    predictions := st.predictions ++ [prediction] }

/-- ARIMA backtest loop: `i` from `max(p, q)` to `diffPrices.length - 1`. -/
def arimaBacktest (p q : ℕ) (diff : List ℚ) : ArimaBt :=
  (List.range' (max p q) (diff.length - max p q)).foldl
    (arimaBtStep p q diff) { errors := [], predictions := [] }

/-- Un-differenced (original-scale, unrounded) backtest predictions: entry
`i` is `predictions[i]` plus the `d` close prices at indices
`actualIndex - 1 .. actualIndex - d`, where `actualIndex = i + max(p,q) + d`. -/
def arimaUndiff (p d q : ℕ) (closePrices : List ℚ) (predictions : List ℚ) :
    List ℚ :=
  (List.range predictions.length).map fun i =>
    (List.range d).foldl
      (fun s j => s + closePrices.getD (i + max p q + d - j - 1) 0)
      (predictions.getD i 0)

/-- ARIMA backtest results pushed by the history loop. -/
def arimaBtResults (p d q : ℕ) (closePrices : List ℚ) (dates : List ℕ)
    (predictions : List ℚ) : List PredictionResult :=
  (List.range predictions.length).map fun i =>
    let actualIndex := i + max p q + d
    { date := dates.getD actualIndex 0,
      actual := some (closePrices.getD actualIndex 0),
      predicted := round2 ((arimaUndiff p d q closePrices predictions).getD i 0),
      modelName := .arima }

/-- Read `l[l.length - j - 1]` (a trailing element). -/
def lastGet (l : List ℚ) (j : ℕ) : ℚ := l.getD (l.length - j - 1) 0

/-- Forecast-loop AR component:
`for j in [0, min p lastPredictions.length)`. -/
def arCompF (p : ℕ) (lastPredictions : List ℚ) : ℚ :=
  (List.range (min p lastPredictions.length)).foldl
    (fun s j => s + (1 / (p : ℚ)) * lastGet lastPredictions j) 0

/-- Forecast-loop MA component:
`for j in [0, min q lastErrors.length)`. -/
def maCompF (q : ℕ) (lastErrors : List ℚ) : ℚ :=
  (List.range (min q lastErrors.length)).foldl
    (fun s j => s + (1 / (q : ℚ)) * lastGet lastErrors j) 0

/-- Mutable state of the ARIMA forecast loop (`lastActuals` is never
written after initialization, so it is a parameter of the loop instead). -/
structure ArimaFc where
  lastPredictions : List ℚ
  lastErrors : List ℚ
  undiffPredictions : List ℚ
deriving DecidableEq, Repr

/-- ARIMA forecast loop: each step computes the differenced prediction,
un-differences it against previously reconstructed values (`i - j >= 0`)
or trailing actuals, rounds, emits, and slides the trailing windows. -/
def arimaFcLoop (p d q : ℕ) (lastActuals : List ℚ) (lastDate : ℕ) :
    ℕ → ℕ → ArimaFc → List PredictionResult
  | 0, _, _ => []
  | fuel + 1, i, st =>
    let diffPrediction := arCompF p st.lastPredictions + maCompF q st.lastErrors
    let undiffValue :=
      (List.range d).foldl
        (fun s j =>
          s + if j ≤ i then lastGet st.undiffPredictions j
              else lastActuals.getD (lastActuals.length - (j - i) - 1) 0)
        diffPrediction
    let finalPrediction := round2 undiffValue
    { date := getNextBusinessDay lastDate (i + 1),
      actual := none,
      predicted := finalPrediction,
      modelName := .arima }
      :: arimaFcLoop p d q lastActuals lastDate fuel (i + 1)
        { lastPredictions := st.lastPredictions.tail ++ [diffPrediction],
          lastErrors := st.lastErrors.tail ++ [0],
          undiffPredictions := st.undiffPredictions ++ [finalPrediction] }

/-- Source `arimaPredict(data, p, d, q, forecastDays)`. -/
def arimaPredict (data : List StockDataPoint) (p d q forecastDays : ℕ) :
    Option (List PredictionResult) :=
  if data.length < max p q + d + 1 then none
  else
    let closePrices := data.map (·.close)
    let dates := data.map (·.date)
    let diffPrices := diffN d closePrices
    let bt := arimaBacktest p q diffPrices
    some (arimaBtResults p d q closePrices dates bt.predictions ++
      arimaFcLoop p d q (sliceNegLast closePrices d)
        (dates.getD (dates.length - 1) 0) forecastDays 0
        { lastPredictions := sliceNegLast bt.predictions p,
          lastErrors := sliceNegLast bt.errors q,
          undiffPredictions := arimaUndiff p d q closePrices bt.predictions })

/-! ### Accuracy evaluator and model selector -/

/-- Source `calculateMAE(predictions)`. -/
def calculateMAE (predictions : List PredictionResult) : ℚ :=
  let validPairs := predictions.filter (fun r => r.actual.isSome)
  if validPairs.length = 0 then 0
  else
    round2 ((validPairs.foldl (fun acc r => acc + |r.actual.getD 0 - r.predicted|) 0)
      / (validPairs.length : ℚ))

/-- Source `calculateMPE(predictions)`. -/
def calculateMPE (predictions : List PredictionResult) : ℚ :=
  let validPairs := predictions.filter (fun r => r.actual.isSome)
  if validPairs.length = 0 then 0
  else
    round2 ((validPairs.foldl
        (fun acc r => acc + (r.predicted - r.actual.getD 0) / r.actual.getD 0 * 100) 0)
      / (validPairs.length : ℚ))

/-- Insertion order of the `metrics` record, which `Object.entries`
replays: Moving Average, Exponential Smoothing, ARIMA. -/
def modelOrder : List ForecastingModel :=
  [.movingAverage, .exponentialSmoothing, .arima]

/-- Position of a model in the fixed priority order. -/
def modelIdx : ForecastingModel → ℕ
  | .movingAverage => 0
  | .exponentialSmoothing => 1
  | .arima => 2

/-- Source `determineBestModel(predictions)`: computes the metrics record, then
folds over its entries keeping the strictly smaller MAE. -/
def determineBestModel (predictions : ForecastingModel → List PredictionResult) :
    ForecastingModel × (ForecastingModel → ℚ × ℚ) :=
  let metrics : ForecastingModel → ℚ × ℚ := fun m =>
    (calculateMAE (predictions m), calculateMPE (predictions m))
  let best := modelOrder.foldl
    (fun acc m => if (metrics m).1 < acc.2 then (m, (metrics m).1) else acc)
    (ForecastingModel.movingAverage, (metrics .movingAverage).1)
  (best.1, metrics)

/-! ### Derived definitions used by the specification theorems -/

/-- The last historical date (`dates[dates.length - 1]`). -/
def lastDate (data : List StockDataPoint) : ℕ :=
  (data.map (·.date)).getD (data.length - 1) 0

/-- The split property of a result sequence: entries before index
`length - forecastDays` carry an actual value and a date at most the last
input date; entries from that index on have no actual value and a
strictly later date. -/
def SplitAt (rs : List PredictionResult) (fd lastD : ℕ) : Prop :=
  (∀ r ∈ rs.take (rs.length - fd), r.actual.isSome = true ∧ r.date ≤ lastD) ∧
  (∀ r ∈ rs.drop (rs.length - fd), r.actual = none ∧ lastD < r.date)

/-- The forecast portion of a result list with horizon 7: exactly seven
entries, dated the 1st..7th business days after the last input date, with
strictly increasing dates, none on a weekend. -/
def FcDates (rs : List PredictionResult) (lastD : ℕ) : Prop :=
  (rs.drop (rs.length - 7)).length = 7 ∧
  (rs.drop (rs.length - 7)).map (·.date) =
    (List.range' 1 7).map (getNextBusinessDay lastD) ∧
  List.Chain' (· < ·) ((rs.drop (rs.length - 7)).map (·.date)) ∧
  ∀ dte ∈ (rs.drop (rs.length - 7)).map (·.date), isBusinessDay dte = true

/-- One slide of the claimed rolling window: drop the oldest element and
append the just-emitted rounded mean. -/
def slideWindow (win : List ℚ) : List ℚ := win.tail ++ [round2 (listMean win)]

/-- The claimed window sequence: `W 0` is the last `w` input closes and
`W (k+1)` slides `W k`, feeding the rounded prediction back in. -/
def maWindow (w : ℕ) (c : List ℚ) : ℕ → List ℚ
  | 0 => c.drop (c.length - w)
  | k + 1 => slideWindow (maWindow w c k)

/-- Tail-style iteration of `slideWindow`, matching the loop. -/
def slideIter (win : List ℚ) : ℕ → List ℚ
  | 0 => win
  | k + 1 => slideIter (slideWindow win) k

/-- Claim-side prediction at backtest step `i`: uniform weight `1/p` times
the sum of the `p` differenced values immediately preceding position
`max(p,q) + i` of the differenced series, plus uniform weight `1/q` times
the sum of the up-to-`q` most recent residuals computed so far (zero
contribution where no residual exists yet). -/
def specPred (p q : ℕ) (diff : List ℚ) (i : ℕ) (res : List ℚ) : ℚ :=
  (1 / (p : ℚ)) *
    listSum ((List.range p).map fun j => diff.getD (max p q + i - j - 1) 0) +
  (1 / (q : ℚ)) *
    listSum ((List.range (min q res.length)).map fun j =>
      res.getD (res.length - j - 1) 0)

/-- Claim-side running residual list: step `i` appends
`(differenced actual at position max(p,q) + i) - pred_i`. -/
def specResiduals (p q : ℕ) (diff : List ℚ) : ℕ → List ℚ
  | 0 => []
  | i + 1 => specResiduals p q diff i ++
      [diff.getD (max p q + i) 0 -
        specPred p q diff i (specResiduals p q diff i)]

/-- Scenario A of the spec: ten consecutive constant closes at 100.00
(dates are consecutive day numbers). -/
def scenarioA : List StockDataPoint := (List.range 10).map fun i => ⟨i, 100⟩

/-- Moving-average output for Scenario A (window 5, no forecast horizon,
so exactly the backtest points). -/
def scenarioAResults : List PredictionResult :=
  (movingAveragePredict scenarioA 5 0).getD []

/-- A concrete six-point input series (ascending dates) used to
instantiate the theorems above. -/
def sampleData : List StockDataPoint :=
  [⟨0, 10⟩, ⟨1, 12⟩, ⟨2, 11⟩, ⟨3, 13⟩, ⟨4, 14⟩, ⟨5, 12⟩]

/-! ### General lemmas about the embedded primitives -/

theorem foldl_add_init : ∀ (l : List ℚ) (init : ℚ),
    l.foldl (· + ·) init = init + listSum l := by
  intro l
  induction l with
  | nil => intro init; simp [listSum]
  | cons x xs ih =>
    intro init
    simp only [listSum, List.foldl_cons] at ih ⊢
    rw [ih, ih (0 + x)]
    ring

theorem listSum_cons (y : ℚ) (ys : List ℚ) : listSum (y :: ys) = y + listSum ys := by
  show List.foldl (· + ·) 0 (y :: ys) = y + listSum ys
  rw [List.foldl_cons, foldl_add_init]
  ring

theorem foldl_addf_init {α : Type} (f : α → ℚ) : ∀ (l : List α) (init : ℚ),
    l.foldl (fun acc x => acc + f x) init = init + listSum (l.map f) := by
  intro l
  induction l with
  | nil => intro init; simp [listSum]
  | cons x xs ih =>
    intro init
    simp only [List.foldl_cons, List.map_cons, listSum_cons, ih]
    ring

theorem listSum_nonneg : ∀ l : List ℚ, (∀ x ∈ l, 0 ≤ x) → 0 ≤ listSum l := by
  intro l
  induction l with
  | nil => intro _; simp [listSum]
  | cons x xs ih =>
    intro h
    rw [listSum_cons]
    have hx := h x (List.mem_cons_self x xs)
    have hxs := ih fun y hy => h y (List.mem_cons_of_mem x hy)
    linarith

theorem round2_nonneg {x : ℚ} (hx : 0 ≤ x) : 0 ≤ round2 x := by
  unfold round2
  have h : (0 : ℤ) ≤ Int.floor (x * 100 + 1/2) := by
    rw [Int.floor_nonneg]
    linarith
  have h100 : (0 : ℚ) ≤ 100 := by norm_num
  exact div_nonneg (by exact_mod_cast h) h100

/-! ### C2: `InsufficientDataError` exactly on too-short input -/

/-- C2: each forecaster fails (returns `none`, the embedding of the thrown
`InsufficientDataError`) if and only if the series is shorter than its
minimum required length: `windowSize` for the moving average, `2` for
exponential smoothing, `max(p,q) + d + 1` for ARIMA; for every series
meeting the minimum it returns normally (`some`), with no other failure
mode. -/
theorem insufficientData_iff_short (data : List StockDataPoint)
    (w fd p d q : ℕ) (alpha : ℚ) :
    ((movingAveragePredict data w fd).isNone ↔ data.length < w) ∧
    ((exponentialSmoothingPredict data alpha fd).isNone ↔ data.length < 2) ∧
    ((arimaPredict data p d q fd).isNone ↔ data.length < max p q + d + 1) := by
  refine ⟨?_, ?_, ?_⟩
  · simp only [movingAveragePredict]
    split_ifs with h <;> simp [h]
  · simp only [exponentialSmoothingPredict]
    split_ifs with h <;> simp [h]
  · simp only [arimaPredict]
    split_ifs with h <;> simp [h]

/-! ### C1: the selector picks the minimal-MAE model -/

/-- C1: `determineBestModel` returns a best model whose MAE is at most the
MAE of each other model; among the models attaining the minimal MAE the
winner is the earliest in the fixed priority order (Moving Average,
Exponential Smoothing, ARIMA); and the metrics map pairs exactly the three
models with their `(mae, mpe)` values. -/
theorem determineBestModel_spec
    (predictions : ForecastingModel → List PredictionResult) :
    (∀ m, ((determineBestModel predictions).2 (determineBestModel predictions).1).1 ≤
        ((determineBestModel predictions).2 m).1) ∧
    (∀ m, ((determineBestModel predictions).2 m).1 =
        ((determineBestModel predictions).2 (determineBestModel predictions).1).1 →
      modelIdx (determineBestModel predictions).1 ≤ modelIdx m) ∧
    (∀ m, (determineBestModel predictions).2 m =
      (calculateMAE (predictions m), calculateMPE (predictions m))) := by
  have hirr : ¬ (calculateMAE (predictions .movingAverage) <
      calculateMAE (predictions .movingAverage)) := lt_irrefl _
  simp only [determineBestModel, modelOrder, List.foldl_cons, List.foldl_nil, hirr,
    if_false]
  split_ifs with h1 h2 h2 <;>
    refine ⟨fun m => ?_, fun m hm => ?_, fun m => by simp⟩ <;>
    cases m <;>
    simp_all [modelIdx] <;>
    linarith

/-! ### Business-day calendar lemmas -/

theorem isBusinessDay_iff (n : ℕ) :
    isBusinessDay n = true ↔ ((n + 4) % 7 ≠ 0 ∧ (n + 4) % 7 ≠ 6) := by
  simp [isBusinessDay, dayOfWeek]

theorem lt_nextBusinessDay1 (d : ℕ) : d < nextBusinessDay1 d := by
  unfold nextBusinessDay1
  split_ifs <;> omega

theorem isBusinessDay_nextBusinessDay1 (d : ℕ) :
    isBusinessDay (nextBusinessDay1 d) = true := by
  unfold nextBusinessDay1
  split_ifs with h1 h2
  · exact h1
  · exact h2
  · rw [isBusinessDay_iff] at h1 h2 ⊢
    push_neg at h1 h2
    omega

theorem nextBusinessDay1_min (d e : ℕ) (hd : d < e) (he : isBusinessDay e = true) :
    nextBusinessDay1 d ≤ e := by
  rw [isBusinessDay_iff] at he
  unfold nextBusinessDay1
  split_ifs with h1 h2
  · omega
  · rw [isBusinessDay_iff] at h1
    push_neg at h1
    omega
  · rw [isBusinessDay_iff] at h1 h2
    push_neg at h1 h2
    omega

theorem getNextBusinessDay_lt_succ (l k : ℕ) :
    getNextBusinessDay l k < getNextBusinessDay l (k + 1) :=
  lt_nextBusinessDay1 _

theorem lt_getNextBusinessDay (l : ℕ) : ∀ k, 0 < k → l < getNextBusinessDay l k := by
  intro k
  induction k with
  | zero => omega
  | succ n ih =>
    intro _
    rcases Nat.eq_zero_or_pos n with rfl | hn
    · exact lt_nextBusinessDay1 l
    · exact lt_trans (ih hn) (getNextBusinessDay_lt_succ l n)

theorem isBusinessDay_getNextBusinessDay (l : ℕ) :
    ∀ k, 0 < k → isBusinessDay (getNextBusinessDay l k) = true := by
  intro k
  induction k with
  | zero => omega
  | succ n _ => intro _; exact isBusinessDay_nextBusinessDay1 _

/-! ### Shape lemmas: each forecaster output is backtest ++ forecast -/

theorem movingAveragePredict_eq (data : List StockDataPoint) (w fd : ℕ)
    (h : w ≤ data.length) :
    (movingAveragePredict data w fd).getD [] =
      maBacktest (data.map (·.close)) (data.map (·.date)) w ++
      maForecastLoop (lastDate data) fd 0 (sliceNegLast (data.map (·.close)) w) := by
  rw [movingAveragePredict, if_neg (by omega)]
  simp [lastDate]

theorem exponentialSmoothingPredict_eq (data : List StockDataPoint) (alpha : ℚ)
    (fd : ℕ) (h : 2 ≤ data.length) :
    (exponentialSmoothingPredict data alpha fd).getD [] =
      esBacktest alpha (data.map (·.close)) (data.map (·.date)) ++
      esForecastLoop alpha (lastDate data) fd 0
        (esF alpha (data.map (·.close)) (data.length - 1))
        ((data.map (·.close)).getD (data.length - 1) 0) := by
  rw [exponentialSmoothingPredict, if_neg (by omega)]
  simp [lastDate]

theorem arimaPredict_eq (data : List StockDataPoint) (p d q fd : ℕ)
    (h : max p q + d + 1 ≤ data.length) :
    (arimaPredict data p d q fd).getD [] =
      arimaBtResults p d q (data.map (·.close)) (data.map (·.date))
        (arimaBacktest p q (diffN d (data.map (·.close)))).predictions ++
      arimaFcLoop p d q (sliceNegLast (data.map (·.close)) d) (lastDate data) fd 0
        { lastPredictions :=
            sliceNegLast (arimaBacktest p q (diffN d (data.map (·.close)))).predictions p,
          lastErrors :=
            sliceNegLast (arimaBacktest p q (diffN d (data.map (·.close)))).errors q,
          undiffPredictions :=
            arimaUndiff p d q (data.map (·.close))
              (arimaBacktest p q (diffN d (data.map (·.close)))).predictions } := by
  rw [arimaPredict, if_neg (by omega)]
  simp [lastDate]

/-! ### Forecast-loop lemmas -/

theorem maForecastLoop_dates (lastD : ℕ) :
    ∀ (fuel i : ℕ) (win : List ℚ),
      (maForecastLoop lastD fuel i win).map (·.date) =
        (List.range' (i + 1) fuel).map (getNextBusinessDay lastD) := by
  intro fuel
  induction fuel with
  | zero => intro i win; rfl
  | succ n ih =>
    intro i win
    simp only [maForecastLoop, List.map_cons, List.range'_succ]
    rw [ih]

theorem maForecastLoop_actual (lastD : ℕ) :
    ∀ (fuel i : ℕ) (win : List ℚ), ∀ r ∈ maForecastLoop lastD fuel i win,
      r.actual = none := by
  intro fuel
  induction fuel with
  | zero => intro i win r hr; cases hr
  | succ n ih =>
    intro i win r hr
    rcases hr with _ | ⟨_, hr⟩
    · rfl
    · exact ih (i + 1) _ r (by assumption)

theorem maForecastLoop_length (lastD : ℕ) (fuel i : ℕ) (win : List ℚ) :
    (maForecastLoop lastD fuel i win).length = fuel := by
  have h := congrArg List.length (maForecastLoop_dates lastD fuel i win)
  simpa using h

theorem esForecastLoop_dates (alpha : ℚ) (lastD : ℕ) :
    ∀ (fuel i : ℕ) (f la : ℚ),
      (esForecastLoop alpha lastD fuel i f la).map (·.date) =
        (List.range' (i + 1) fuel).map (getNextBusinessDay lastD) := by
  intro fuel
  induction fuel with
  | zero => intro i f la; rfl
  | succ n ih =>
    intro i f la
    simp only [esForecastLoop, List.map_cons, List.range'_succ]
    rw [ih]

theorem esForecastLoop_actual (alpha : ℚ) (lastD : ℕ) :
    ∀ (fuel i : ℕ) (f la : ℚ), ∀ r ∈ esForecastLoop alpha lastD fuel i f la,
      r.actual = none := by
  intro fuel
  induction fuel with
  | zero => intro i f la r hr; cases hr
  | succ n ih =>
    intro i f la r hr
    rcases hr with _ | ⟨_, hr⟩
    · rfl
    · exact ih (i + 1) _ _ r (by assumption)

theorem esForecastLoop_length (alpha : ℚ) (lastD : ℕ) (fuel i : ℕ) (f la : ℚ) :
    (esForecastLoop alpha lastD fuel i f la).length = fuel := by
  have h := congrArg List.length (esForecastLoop_dates alpha lastD fuel i f la)
  simpa using h

theorem arimaFcLoop_dates (p d q : ℕ) (lastActuals : List ℚ) (lastD : ℕ) :
    ∀ (fuel i : ℕ) (st : ArimaFc),
      (arimaFcLoop p d q lastActuals lastD fuel i st).map (·.date) =
        (List.range' (i + 1) fuel).map (getNextBusinessDay lastD) := by
  intro fuel
  induction fuel with
  | zero => intro i st; rfl
  | succ n ih =>
    intro i st
    simp only [arimaFcLoop, List.map_cons, List.range'_succ]
    rw [ih]

theorem arimaFcLoop_actual (p d q : ℕ) (lastActuals : List ℚ) (lastD : ℕ) :
    ∀ (fuel i : ℕ) (st : ArimaFc), ∀ r ∈ arimaFcLoop p d q lastActuals lastD fuel i st,
      r.actual = none := by
  intro fuel
  induction fuel with
  | zero => intro i st r hr; cases hr
  | succ n ih =>
    intro i st r hr
    rcases hr with _ | ⟨_, hr⟩
    · rfl
    · exact ih (i + 1) _ r (by assumption)

theorem arimaFcLoop_length (p d q : ℕ) (lastActuals : List ℚ) (lastD : ℕ)
    (fuel i : ℕ) (st : ArimaFc) :
    (arimaFcLoop p d q lastActuals lastD fuel i st).length = fuel := by
  have h := congrArg List.length (arimaFcLoop_dates p d q lastActuals lastD fuel i st)
  simpa using h

/-! ### Backtest lemmas -/

theorem maBacktest_length (cp : List ℚ) (dts : List ℕ) (w : ℕ) :
    (maBacktest cp dts w).length = cp.length - w := by
  simp [maBacktest]

theorem maBacktest_mem (cp : List ℚ) (dts : List ℕ) (w : ℕ) :
    ∀ r ∈ maBacktest cp dts w, r.actual.isSome = true ∧
      ∃ i, w ≤ i ∧ i < cp.length ∧ r.date = dts.getD i 0 := by
  intro r hr
  simp only [maBacktest, List.mem_map, List.mem_range'_1] at hr
  obtain ⟨i, ⟨hwi, hin⟩, rfl⟩ := hr
  exact ⟨rfl, i, hwi, by omega, rfl⟩

theorem esBacktest_length (alpha : ℚ) (cp : List ℚ) (dts : List ℕ) :
    (esBacktest alpha cp dts).length = cp.length - 1 := by
  simp [esBacktest]

theorem esBacktest_mem (alpha : ℚ) (cp : List ℚ) (dts : List ℕ) :
    ∀ r ∈ esBacktest alpha cp dts, r.actual.isSome = true ∧
      ∃ i, 1 ≤ i ∧ i < cp.length ∧ r.date = dts.getD i 0 := by
  intro r hr
  simp only [esBacktest, List.mem_map, List.mem_range'_1] at hr
  obtain ⟨i, ⟨hwi, hin⟩, rfl⟩ := hr
  exact ⟨rfl, i, hwi, by omega, rfl⟩

theorem diffOnce_length (l : List ℚ) : (diffOnce l).length = l.length - 1 := by
  simp only [diffOnce, List.length_zipWith, List.length_tail]
  omega

theorem diffN_length (d : ℕ) : ∀ l : List ℚ, (diffN d l).length = l.length - d := by
  induction d with
  | zero => intro l; rfl
  | succ n ih =>
    intro l
    show (diffOnce (diffN n l)).length = l.length - (n + 1)
    rw [diffOnce_length, ih]
    omega

theorem arimaBt_foldl_lengths (p q : ℕ) (diff : List ℚ) :
    ∀ (is : List ℕ) (st : ArimaBt),
      ((is.foldl (arimaBtStep p q diff) st).predictions.length =
        st.predictions.length + is.length) ∧
      ((is.foldl (arimaBtStep p q diff) st).errors.length =
        st.errors.length + is.length) := by
  intro is
  induction is with
  | nil => intro st; simp
  | cons a t ih =>
    intro st
    simp only [List.foldl_cons]
    have h := ih (arimaBtStep p q diff st a)
    constructor
    · rw [h.1]
      simp only [arimaBtStep, List.length_append, List.length_cons, List.length_nil,
        List.length_cons]
      omega
    · rw [h.2]
      simp only [arimaBtStep, List.length_append, List.length_cons, List.length_nil,
        List.length_cons]
      omega

theorem arimaBacktest_predictions_length (p q : ℕ) (diff : List ℚ) :
    (arimaBacktest p q diff).predictions.length = diff.length - max p q := by
  have h := (arimaBt_foldl_lengths p q diff
    (List.range' (max p q) (diff.length - max p q)) { errors := [], predictions := [] }).1
  simpa [arimaBacktest] using h

theorem arimaBacktest_errors_length (p q : ℕ) (diff : List ℚ) :
    (arimaBacktest p q diff).errors.length = diff.length - max p q := by
  have h := (arimaBt_foldl_lengths p q diff
    (List.range' (max p q) (diff.length - max p q)) { errors := [], predictions := [] }).2
  simpa [arimaBacktest] using h

theorem arimaBtResults_length (p d q : ℕ) (cp : List ℚ) (dts : List ℕ)
    (preds : List ℚ) :
    (arimaBtResults p d q cp dts preds).length = preds.length := by
  simp [arimaBtResults]

theorem arimaBtResults_mem (p d q : ℕ) (cp : List ℚ) (dts : List ℕ)
    (preds : List ℚ) :
    ∀ r ∈ arimaBtResults p d q cp dts preds, r.actual.isSome = true ∧
      ∃ i, i < preds.length ∧ r.date = dts.getD (i + max p q + d) 0 := by
  intro r hr
  simp only [arimaBtResults, List.mem_map, List.mem_range] at hr
  obtain ⟨i, hin, rfl⟩ := hr
  exact ⟨rfl, i, hin, rfl⟩

/-- Reading a sorted list of dates at a smaller index gives a smaller date. -/
theorem sorted_getD_le (l : List ℕ) (hs : l.Sorted (· ≤ ·)) (i j : ℕ)
    (hij : i ≤ j) (hj : j < l.length) : l.getD i 0 ≤ l.getD j 0 := by
  rcases eq_or_lt_of_le hij with rfl | hlt
  · exact le_refl _
  · have hi : i < l.length := lt_trans hlt hj
    rw [List.getD_eq_getElem l 0 hi, List.getD_eq_getElem l 0 hj]
    exact List.pairwise_iff_getElem.mp hs i j hi hj hlt

/-! ### C3: the actual/forecast split invariant -/

theorem splitAt_of_parts (bt fc : List PredictionResult) (fd lastD : ℕ)
    (hfc : fc.length = fd)
    (hbt : ∀ r ∈ bt, r.actual.isSome = true ∧ r.date ≤ lastD)
    (hfc2 : ∀ r ∈ fc, r.actual = none ∧ lastD < r.date) :
    SplitAt (bt ++ fc) fd lastD := by
  have hlen : (bt ++ fc).length - fd = bt.length := by
    simp [List.length_append, hfc]
  constructor
  · rw [hlen, List.take_left]
    exact hbt
  · rw [hlen, List.drop_left]
    exact hfc2

theorem fc_entries_late (L : List PredictionResult) (fd lastD : ℕ)
    (hdates : L.map (·.date) = (List.range' 1 fd).map (getNextBusinessDay lastD))
    (hact : ∀ r ∈ L, r.actual = none) :
    ∀ r ∈ L, r.actual = none ∧ lastD < r.date := by
  intro r hr
  refine ⟨hact r hr, ?_⟩
  have hmem : r.date ∈ L.map (·.date) := List.mem_map_of_mem _ hr
  rw [hdates] at hmem
  simp only [List.mem_map, List.mem_range'_1] at hmem
  obtain ⟨k, ⟨hk1, _⟩, hkd⟩ := hmem
  rw [← hkd]
  exact lt_getNextBusinessDay lastD k hk1

theorem bt_entries_early (data : List StockDataPoint)
    (hs : (data.map (·.date)).Sorted (· ≤ ·))
    (bt : List PredictionResult)
    (hmem : ∀ r ∈ bt, r.actual.isSome = true ∧
      ∃ i, i < data.length ∧ r.date = (data.map (·.date)).getD i 0) :
    ∀ r ∈ bt, r.actual.isSome = true ∧ r.date ≤ lastDate data := by
  intro r hr
  obtain ⟨hsome, i, hin, hdate⟩ := hmem r hr
  refine ⟨hsome, ?_⟩
  rw [hdate]
  unfold lastDate
  exact sorted_getD_le _ hs i (data.length - 1) (by omega)
    (by simp only [List.length_map]; omega)

/-- C3: for every sorted input series meeting a model's precondition and
every `forecastDays`, the returned sequence splits at index
`length - forecastDays`: every earlier entry has `actual` present and
date at most the last input date, every entry from that index on has
`actual` absent and a date strictly after the last input date. -/
theorem actual_split (data : List StockDataPoint) (w fd p d q : ℕ) (alpha : ℚ)
    (hs : (data.map (·.date)).Sorted (· ≤ ·)) :
    (w ≤ data.length →
      SplitAt ((movingAveragePredict data w fd).getD []) fd (lastDate data)) ∧
    (2 ≤ data.length →
      SplitAt ((exponentialSmoothingPredict data alpha fd).getD []) fd (lastDate data)) ∧
    (max p q + d + 1 ≤ data.length →
      SplitAt ((arimaPredict data p d q fd).getD []) fd (lastDate data)) := by
  refine ⟨fun h => ?_, fun h => ?_, fun h => ?_⟩
  · rw [movingAveragePredict_eq data w fd h]
    refine splitAt_of_parts _ _ _ _ (maForecastLoop_length _ _ _ _) ?_
      (fc_entries_late _ fd _ (maForecastLoop_dates _ _ _ _)
        (maForecastLoop_actual _ _ _ _))
    refine bt_entries_early data hs _ ?_
    intro r hr
    obtain ⟨hsome, i, _, hin, hdate⟩ := maBacktest_mem _ _ _ r hr
    exact ⟨hsome, i, by simpa using hin, hdate⟩
  · rw [exponentialSmoothingPredict_eq data alpha fd h]
    refine splitAt_of_parts _ _ _ _ (esForecastLoop_length _ _ _ _ _ _) ?_
      (fc_entries_late _ fd _ (esForecastLoop_dates _ _ _ _ _ _)
        (esForecastLoop_actual _ _ _ _ _ _))
    refine bt_entries_early data hs _ ?_
    intro r hr
    obtain ⟨hsome, i, _, hin, hdate⟩ := esBacktest_mem _ _ _ r hr
    exact ⟨hsome, i, by simpa using hin, hdate⟩
  · rw [arimaPredict_eq data p d q fd h]
    refine splitAt_of_parts _ _ _ _ (arimaFcLoop_length _ _ _ _ _ _ _ _) ?_
      (fc_entries_late _ fd _ (arimaFcLoop_dates _ _ _ _ _ _ _ _)
        (arimaFcLoop_actual _ _ _ _ _ _ _ _))
    refine bt_entries_early data hs _ ?_
    intro r hr
    obtain ⟨hsome, i, hin, hdate⟩ := arimaBtResults_mem _ _ _ _ _ _ r hr
    rw [arimaBacktest_predictions_length, diffN_length, List.length_map] at hin
    exact ⟨hsome, i + max p q + d, by omega, hdate⟩

/-! ### C4: backtest and forecast portion lengths -/

theorem countP_isSome_eq_zero (L : List PredictionResult)
    (hact : ∀ r ∈ L, r.actual = none) :
    L.countP (fun r => r.actual.isSome) = 0 := by
  rw [List.countP_eq_zero]
  intro r hr
  rw [hact r hr]
  simp

theorem countP_isNone_eq_length (L : List PredictionResult)
    (hact : ∀ r ∈ L, r.actual = none) :
    L.countP (fun r => r.actual.isNone) = L.length := by
  rw [List.countP_eq_length]
  intro r hr
  rw [hact r hr]
  simp

theorem countP_isSome_eq_length (L : List PredictionResult)
    (hact : ∀ r ∈ L, r.actual.isSome = true) :
    L.countP (fun r => r.actual.isSome) = L.length := by
  rw [List.countP_eq_length]
  exact hact

theorem countP_isNone_eq_zero (L : List PredictionResult)
    (hact : ∀ r ∈ L, r.actual.isSome = true) :
    L.countP (fun r => r.actual.isNone) = 0 := by
  rw [List.countP_eq_zero]
  intro r hr
  have hsome := hact r hr
  simp_all [Option.isNone_iff_eq_none, Option.isSome_iff_ne_none]

/-- C4: for every series meeting a model's precondition and every
`forecastDays`, the number of entries with `actual` present is
`length - windowSize` (moving average), `length - 1` (exponential
smoothing) or `length - (max(p,q) + d)` (ARIMA), and the number of entries
with `actual` absent is exactly `forecastDays`, for all three models. -/
theorem portion_lengths (data : List StockDataPoint) (w fd p d q : ℕ) (alpha : ℚ) :
    (w ≤ data.length →
      ((movingAveragePredict data w fd).getD []).countP
          (fun r => r.actual.isSome) = data.length - w ∧
      ((movingAveragePredict data w fd).getD []).countP
          (fun r => r.actual.isNone) = fd) ∧
    (2 ≤ data.length →
      ((exponentialSmoothingPredict data alpha fd).getD []).countP
          (fun r => r.actual.isSome) = data.length - 1 ∧
      ((exponentialSmoothingPredict data alpha fd).getD []).countP
          (fun r => r.actual.isNone) = fd) ∧
    (max p q + d + 1 ≤ data.length →
      ((arimaPredict data p d q fd).getD []).countP
          (fun r => r.actual.isSome) = data.length - (max p q + d) ∧
      ((arimaPredict data p d q fd).getD []).countP
          (fun r => r.actual.isNone) = fd) := by
  refine ⟨fun h => ?_, fun h => ?_, fun h => ?_⟩
  · rw [movingAveragePredict_eq data w fd h]
    constructor
    · rw [List.countP_append,
        countP_isSome_eq_length _ (fun r hr => (maBacktest_mem _ _ _ r hr).1),
        countP_isSome_eq_zero _ (maForecastLoop_actual _ _ _ _),
        maBacktest_length]
      simp
    · rw [List.countP_append,
        countP_isNone_eq_zero _ (fun r hr => (maBacktest_mem _ _ _ r hr).1),
        countP_isNone_eq_length _ (maForecastLoop_actual _ _ _ _),
        maForecastLoop_length]
      omega
  · rw [exponentialSmoothingPredict_eq data alpha fd h]
    constructor
    · rw [List.countP_append,
        countP_isSome_eq_length _ (fun r hr => (esBacktest_mem _ _ _ r hr).1),
        countP_isSome_eq_zero _ (esForecastLoop_actual _ _ _ _ _ _),
        esBacktest_length]
      simp
    · rw [List.countP_append,
        countP_isNone_eq_zero _ (fun r hr => (esBacktest_mem _ _ _ r hr).1),
        countP_isNone_eq_length _ (esForecastLoop_actual _ _ _ _ _ _),
        esForecastLoop_length]
      omega
  · rw [arimaPredict_eq data p d q fd h]
    constructor
    · rw [List.countP_append,
        countP_isSome_eq_length _ (fun r hr => (arimaBtResults_mem _ _ _ _ _ _ r hr).1),
        countP_isSome_eq_zero _ (arimaFcLoop_actual _ _ _ _ _ _ _ _),
        arimaBtResults_length, arimaBacktest_predictions_length, diffN_length,
        List.length_map]
      omega
    · rw [List.countP_append,
        countP_isNone_eq_zero _ (fun r hr => (arimaBtResults_mem _ _ _ _ _ _ r hr).1),
        countP_isNone_eq_length _ (arimaFcLoop_actual _ _ _ _ _ _ _ _),
        arimaFcLoop_length]
      omega

/-! ### C8: forecast dates are the next business days -/

theorem chain_gnbd (lastD : ℕ) : ∀ (len s : ℕ),
    List.Chain' (· < ·) ((List.range' s len).map (getNextBusinessDay lastD)) := by
  intro len
  induction len with
  | zero => intro s; simp
  | succ n ih =>
    intro s
    rw [List.range'_succ, List.map_cons, List.chain'_cons']
    refine ⟨?_, ih (s + 1)⟩
    intro b hb
    cases n with
    | zero => simp at hb
    | succ m =>
      rw [List.range'_succ, List.map_cons] at hb
      simp only [List.head?_cons, Option.mem_def, Option.some_inj] at hb
      rw [← hb]
      exact getNextBusinessDay_lt_succ lastD s

theorem gnbd_map_business (lastD len : ℕ) :
    ∀ dte ∈ (List.range' 1 len).map (getNextBusinessDay lastD),
      isBusinessDay dte = true := by
  intro dte hmem
  simp only [List.mem_map, List.mem_range'_1] at hmem
  obtain ⟨k, ⟨hk1, _⟩, rfl⟩ := hmem
  exact isBusinessDay_getNextBusinessDay lastD k hk1

theorem fcDates_of_parts (bt fc : List PredictionResult) (lastD : ℕ)
    (hfc : fc.length = 7)
    (hdates : fc.map (·.date) = (List.range' 1 7).map (getNextBusinessDay lastD)) :
    FcDates (bt ++ fc) lastD := by
  have hlen : (bt ++ fc).length - 7 = bt.length := by
    simp [List.length_append, hfc]
  unfold FcDates
  rw [hlen, List.drop_left]
  refine ⟨hfc, hdates, ?_, ?_⟩
  · rw [hdates]
    exact chain_gnbd lastD 7 1
  · rw [hdates]
    exact gnbd_map_business lastD 7

/-- C8: with `forecastDays = 7`, each forecaster's forecast portion has
exactly 7 entries, the k-th (k from 1) dated `getNextBusinessDay` of the
last input date with offset `k`, dates strictly increasing and never on a
Saturday or Sunday; and `nextBusinessDay1` (one counted step of the
day-by-day loop) yields exactly the least Monday-Friday day strictly
after its argument. -/
theorem forecast_seven_business_days (data : List StockDataPoint)
    (w p d q : ℕ) (alpha : ℚ) :
    (∀ dd, dd < nextBusinessDay1 dd ∧ isBusinessDay (nextBusinessDay1 dd) = true ∧
      ∀ e, dd < e → isBusinessDay e = true → nextBusinessDay1 dd ≤ e) ∧
    (w ≤ data.length →
      FcDates ((movingAveragePredict data w 7).getD []) (lastDate data)) ∧
    (2 ≤ data.length →
      FcDates ((exponentialSmoothingPredict data alpha 7).getD []) (lastDate data)) ∧
    (max p q + d + 1 ≤ data.length →
      FcDates ((arimaPredict data p d q 7).getD []) (lastDate data)) := by
  refine ⟨fun dd => ⟨lt_nextBusinessDay1 dd, isBusinessDay_nextBusinessDay1 dd,
    fun e he hbe => nextBusinessDay1_min dd e he hbe⟩,
    fun h => ?_, fun h => ?_, fun h => ?_⟩
  · rw [movingAveragePredict_eq data w 7 h]
    exact fcDates_of_parts _ _ _ (maForecastLoop_length _ _ _ _)
      (maForecastLoop_dates _ _ _ _)
  · rw [exponentialSmoothingPredict_eq data alpha 7 h]
    exact fcDates_of_parts _ _ _ (esForecastLoop_length _ _ _ _ _ _)
      (esForecastLoop_dates _ _ _ _ _ _)
  · rw [arimaPredict_eq data p d q 7 h]
    exact fcDates_of_parts _ _ _ (arimaFcLoop_length _ _ _ _ _ _ _ _)
      (arimaFcLoop_dates _ _ _ _ _ _ _ _)

/-! ### C5: the moving-average forecast compounds rounded predictions -/

theorem slideIter_succ_out : ∀ (k : ℕ) (win : List ℚ),
    slideIter win (k + 1) = slideWindow (slideIter win k) := by
  intro k
  induction k with
  | zero => intro win; rfl
  | succ n ih =>
    intro win
    show slideIter (slideWindow win) (n + 1) = slideWindow (slideIter win (n + 1))
    rw [ih (slideWindow win)]
    rfl

theorem maWindow_eq_slideIter (w : ℕ) (c : List ℚ) : ∀ k : ℕ,
    maWindow w c k = slideIter (c.drop (c.length - w)) k := by
  intro k
  induction k with
  | zero => rfl
  | succ n ih =>
    show slideWindow (maWindow w c n) = _
    rw [ih, ← slideIter_succ_out]

theorem maForecastLoop_getD (lastD : ℕ) : ∀ (k fuel i : ℕ) (win : List ℚ),
    k < fuel →
    (maForecastLoop lastD fuel i win).getD k noResult =
      { date := getNextBusinessDay lastD (i + k + 1),
        actual := none,
        predicted := round2 (listMean (slideIter win k)),
        modelName := .movingAverage } := by
  intro k
  induction k with
  | zero =>
    intro fuel i win hk
    cases fuel with
    | zero => omega
    | succ f => rfl
  | succ n ih =>
    intro fuel i win hk
    cases fuel with
    | zero => omega
    | succ f =>
      show (maForecastLoop lastD f (i + 1) (slideWindow win)).getD n noResult = _
      rw [ih f (i + 1) (slideWindow win) (by omega)]
      have harith : i + 1 + n + 1 = i + (n + 1) + 1 := by omega
      rw [harith]
      rfl

/-- C5: for every series with `0 < windowSize ≤ length`, the k-th
forecast-horizon entry of `movingAveragePredict` (at overall index
`length - windowSize + k`) predicts the rounded mean of window `W k`,
where `W 0` is the last `windowSize` closes and each later window drops
its oldest element and appends the previously emitted rounded
prediction - so the rounded value, not the exact mean, is fed back. -/
theorem ma_forecast_rolling_window (data : List StockDataPoint) (w fd : ℕ)
    (hw : 0 < w) (h : w ≤ data.length) :
    ∀ k, k < fd →
      ((movingAveragePredict data w fd).getD []).getD (data.length - w + k) noResult =
        { date := getNextBusinessDay (lastDate data) (k + 1),
          actual := none,
          predicted := round2 (listMean (maWindow w (data.map (·.close)) k)),
          modelName := .movingAverage } := by
  intro k hk
  rw [movingAveragePredict_eq data w fd h]
  have hbt : (maBacktest (data.map (·.close)) (data.map (·.date)) w).length =
      data.length - w := by
    rw [maBacktest_length, List.length_map]
  rw [List.getD_append_right _ _ _ _ (by rw [hbt]; omega), hbt]
  have hidx : data.length - w + k - (data.length - w) = k := by omega
  rw [hidx]
  rw [maForecastLoop_getD (lastDate data) k fd 0 _ hk]
  have hw0 : sliceNegLast (data.map (·.close)) w =
      (data.map (·.close)).drop ((data.map (·.close)).length - w) := by
    rw [sliceNegLast, if_neg (by omega)]
  rw [hw0, ← maWindow_eq_slideIter]
  norm_num

/-! ### C6: the exponential-smoothing backtest is one-step-ahead -/

theorem getD_eq_of_take_eq (c1 c2 : List ℚ) (i j : ℕ) (hj : j < i)
    (h : c1.take i = c2.take i) : c1.getD j 0 = c2.getD j 0 := by
  have h1 : (c1.take i)[j]? = (c2.take i)[j]? := by rw [h]
  rw [List.getElem?_take_of_lt hj, List.getElem?_take_of_lt hj] at h1
  simp only [List.getD_eq_getElem?_getD, h1]

theorem esF_only_uses_earlier_closes (alpha : ℚ) : ∀ (i : ℕ) (c1 c2 : List ℚ),
    1 ≤ i → c1.take i = c2.take i → esF alpha c1 i = esF alpha c2 i := by
  intro i
  induction i with
  | zero => intro c1 c2 h htake; omega
  | succ n ih =>
    intro c1 c2 _ htake
    show alpha * c1.getD n 0 + (1 - alpha) * esF alpha c1 n =
      alpha * c2.getD n 0 + (1 - alpha) * esF alpha c2 n
    have hgd : c1.getD n 0 = c2.getD n 0 :=
      getD_eq_of_take_eq c1 c2 (n + 1) n (by omega) htake
    rcases Nat.eq_zero_or_pos n with rfl | hn
    · simp only [esF]
      rw [hgd]
    · have hpre : c1.take n = c2.take n := by
        have h2 := congrArg (fun l => List.take n l) htake
        simpa [List.take_take, min_eq_left (by omega : n ≤ n + 1)] using h2
      rw [hgd, ih c1 c2 hn hpre]

theorem esBacktest_getD (alpha : ℚ) (cp : List ℚ) (dts : List ℕ) (i : ℕ)
    (h1 : 1 ≤ i) (hi : i < cp.length) :
    (esBacktest alpha cp dts).getD (i - 1) noResult =
      { date := dts.getD i 0, actual := some (cp.getD i 0),
        predicted := round2 (esF alpha cp i),
        modelName := .exponentialSmoothing } := by
  have hlen : i - 1 < (List.range' 1 (cp.length - 1)).length := by
    simp only [List.length_range']
    omega
  rw [esBacktest, List.getD_eq_getElem _ _ (by simpa using hlen),
    List.getElem_map, List.getElem_range'_1]
  have h2 : 1 + (i - 1) = i := by omega
  rw [h2]

/-- C6: for every series of length at least 2, backtest entry `i - 1` of
`exponentialSmoothingPredict` (for `1 ≤ i < length`) is dated `date[i]`,
has actual `close[i]` and predicts `round2 (esF alpha closes i)`, the
recursion seeded with `close[0]` and updated with the previous close, so
it depends only on closes strictly before index `i`; and on the series
`[10, 20]` with `alpha = 0.3` the backtest is the single entry predicting
`10.00` against actual `20`. -/
theorem es_backtest_one_step_ahead (data : List StockDataPoint) (alpha : ℚ)
    (fd : ℕ) (h : 2 ≤ data.length) :
    (∀ i, 1 ≤ i → i < data.length →
      ((exponentialSmoothingPredict data alpha fd).getD []).getD (i - 1) noResult =
        { date := (data.map (·.date)).getD i 0,
          actual := some ((data.map (·.close)).getD i 0),
          predicted := round2 (esF alpha (data.map (·.close)) i),
          modelName := .exponentialSmoothing }) ∧
    (∀ (i : ℕ) (c1 c2 : List ℚ), 1 ≤ i → c1.take i = c2.take i →
      esF alpha c1 i = esF alpha c2 i) ∧
    (exponentialSmoothingPredict [⟨0, 10⟩, ⟨1, 20⟩] (3/10) 0).getD [] =
      [{ date := 1, actual := some 20, predicted := 10,
         modelName := .exponentialSmoothing }] := by
  refine ⟨?_, fun i c1 c2 hi ht => esF_only_uses_earlier_closes alpha i c1 c2 hi ht,
    by with_unfolding_all decide⟩
  intro i h1 hi
  rw [exponentialSmoothingPredict_eq data alpha fd h]
  have hbl : (esBacktest alpha (data.map (·.close)) (data.map (·.date))).length =
      data.length - 1 := by
    rw [esBacktest_length, List.length_map]
  rw [List.getD_append _ _ _ _ (by rw [hbl]; omega)]
  exact esBacktest_getD _ _ _ i h1 (by simpa using hi)

/-! ### C7: the ARIMA backtest with d = 1 -/

theorem listSum_map_const_mul {α : Type} (c : ℚ) (f : α → ℚ) : ∀ l : List α,
    listSum (l.map fun x => c * f x) = c * listSum (l.map f) := by
  intro l
  induction l with
  | nil => simp [listSum]
  | cons x xs ih =>
    simp only [List.map_cons, listSum_cons, ih]
    ring

theorem arComp_eq_spec (p q : ℕ) (diff : List ℚ) (i : ℕ) :
    arComp p diff (max p q + i) =
      (1 / (p : ℚ)) *
        listSum ((List.range p).map fun j =>
          diff.getD (max p q + i - j - 1) 0) := by
  rw [arComp, foldl_addf_init, zero_add,
    listSum_map_const_mul (1 / (p : ℚ))
      (fun j => diff.getD (max p q + i - j - 1) 0) (List.range p)]

theorem maComp_eq_spec (q : ℕ) (res : List ℚ) :
    maComp q res =
      (1 / (q : ℚ)) *
        listSum ((List.range (min q res.length)).map fun j =>
          res.getD (res.length - j - 1) 0) := by
  rw [maComp, foldl_addf_init, zero_add,
    listSum_map_const_mul (1 / (q : ℚ))
      (fun j => res.getD (res.length - j - 1) 0)
      (List.range (min q res.length))]

theorem pred_eq_spec (p q : ℕ) (diff : List ℚ) (n : ℕ) (res : List ℚ) :
    arComp p diff (max p q + n) + maComp q res = specPred p q diff n res := by
  rw [arComp_eq_spec, maComp_eq_spec, specPred]

theorem arimaBt_fold_spec (p q : ℕ) (diff : List ℚ) : ∀ k : ℕ,
    (List.range' (max p q) k).foldl (arimaBtStep p q diff)
        { errors := [], predictions := [] } =
      { errors := specResiduals p q diff k,
        predictions := (List.range k).map fun i =>
          specPred p q diff i (specResiduals p q diff i) } := by
  intro k
  induction k with
  | zero => rfl
  | succ n ih =>
    rw [List.range'_1_concat, List.foldl_append, List.foldl_cons,
      List.foldl_nil, ih]
    simp only [arimaBtStep, ArimaBt.mk.injEq]
    constructor
    · rw [pred_eq_spec]
      rfl
    · rw [List.range_succ, List.map_append, pred_eq_spec]
      rfl

theorem arimaBacktest_eq_spec (p q : ℕ) (diff : List ℚ) :
    arimaBacktest p q diff =
      { errors := specResiduals p q diff (diff.length - max p q),
        predictions := (List.range (diff.length - max p q)).map fun i =>
          specPred p q diff i (specResiduals p q diff i) } := by
  rw [arimaBacktest]
  exact arimaBt_fold_spec p q diff (diff.length - max p q)

/-- C7: with `d = 1` and a series meeting the precondition, the ARIMA
backtest entry for original index `t = max(p,q) + 1 + i` has actual
`close[t]` and predicted `round2 (pred_i + close[t-1])`, where `pred_i`
is the uniform-weight `1/p`, `1/q` formula over the preceding `p`
differenced values and the up-to-`q` most recent residuals (zero where
missing), and the running error list is exactly the claimed residual
recursion `residual_i = diffed actual - pred_i`. -/
theorem arima_backtest_spec (data : List StockDataPoint) (p q fd : ℕ)
    (h : max p q + 1 + 1 ≤ data.length) :
    ((arimaBacktest p q (diffN 1 (data.map (·.close)))).errors =
      specResiduals p q (diffN 1 (data.map (·.close)))
        (data.length - 1 - max p q)) ∧
    ∀ i, i < data.length - 1 - max p q →
      ((arimaPredict data p 1 q fd).getD []).getD i noResult =
        { date := (data.map (·.date)).getD (max p q + 1 + i) 0,
          actual := some ((data.map (·.close)).getD (max p q + 1 + i) 0),
          predicted := round2
            (specPred p q (diffN 1 (data.map (·.close))) i
              (specResiduals p q (diffN 1 (data.map (·.close))) i) +
             (data.map (·.close)).getD (max p q + i) 0),
          modelName := .arima } := by
  have hdl : (diffN 1 (data.map (·.close))).length = data.length - 1 := by
    rw [diffN_length, List.length_map]
  constructor
  · rw [arimaBacktest_eq_spec, hdl]
  · intro i hi
    rw [arimaPredict_eq data p 1 q fd (by omega)]
    have hpl : (arimaBacktest p q (diffN 1 (data.map (·.close)))).predictions.length =
        data.length - 1 - max p q := by
      rw [arimaBacktest_predictions_length, hdl]
    have hbl : (arimaBtResults p 1 q (data.map (·.close)) (data.map (·.date))
        (arimaBacktest p q (diffN 1 (data.map (·.close)))).predictions).length =
        data.length - 1 - max p q := by
      rw [arimaBtResults_length, hpl]
    rw [List.getD_append _ _ _ _ (by rw [hbl]; omega)]
    have hib : i < ((List.range
        (arimaBacktest p q (diffN 1 (data.map (·.close)))).predictions.length)).length := by
      simp only [List.length_range]
      omega
    rw [arimaBtResults, List.getD_eq_getElem _ _ (by simpa using hib),
      List.getElem_map, List.getElem_range]
    have hpred : (arimaBacktest p q (diffN 1 (data.map (·.close)))).predictions.getD i 0 =
        specPred p q (diffN 1 (data.map (·.close))) i
          (specResiduals p q (diffN 1 (data.map (·.close))) i) := by
      rw [arimaBacktest_eq_spec]
      have hil : i < ((List.range ((diffN 1 (data.map (·.close))).length - max p q)).map
          fun j => specPred p q (diffN 1 (data.map (·.close))) j
            (specResiduals p q (diffN 1 (data.map (·.close))) j)).length := by
        simp only [List.length_map, List.length_range, hdl]
        omega
      rw [List.getD_eq_getElem _ _ hil, List.getElem_map, List.getElem_range]
    have hundiff : (arimaUndiff p 1 q (data.map (·.close))
        (arimaBacktest p q (diffN 1 (data.map (·.close)))).predictions).getD i 0 =
        specPred p q (diffN 1 (data.map (·.close))) i
          (specResiduals p q (diffN 1 (data.map (·.close))) i) +
        (data.map (·.close)).getD (max p q + i) 0 := by
      rw [arimaUndiff]
      have hil : i < ((List.range
          (arimaBacktest p q (diffN 1 (data.map (·.close)))).predictions.length)).length := by
        simp only [List.length_range]
        omega
      rw [List.getD_eq_getElem _ _ (by simpa using hil), List.getElem_map,
        List.getElem_range]
      show (List.range 1).foldl _ _ = _
      rw [List.range_succ, List.range_zero, List.nil_append, List.foldl_cons,
        List.foldl_nil, hpred]
      have hidx : i + max p q + 1 - 0 - 1 = max p q + i := by omega
      rw [hidx]
    rw [hundiff]
    have hdate : i + max p q + 1 = max p q + 1 + i := by omega
    rw [hdate]

/-! ### C9: `calculateMAE` -/

/-- C9: `calculateMAE` is the mean of `|actual - predicted|` over exactly
the entries with `actual` present, rounded to 2 decimals, `0` when none is
present; it is non-negative on every input; and on Scenario A the
moving-average (window 5) backtest predictions are all 100 with MAE 0. -/
theorem calculateMAE_spec (preds : List PredictionResult) :
    (calculateMAE preds =
      if preds.filter (fun r => r.actual.isSome) = [] then 0
      else round2 (listSum ((preds.filter fun r => r.actual.isSome).map
          fun r => |r.actual.getD 0 - r.predicted|) /
        ((preds.filter fun r => r.actual.isSome).length : ℚ))) ∧
    0 ≤ calculateMAE preds ∧
    (∀ r ∈ scenarioAResults, r.predicted = 100) ∧
    calculateMAE scenarioAResults = 0 := by
  refine ⟨?_, ?_, by with_unfolding_all decide, by with_unfolding_all decide⟩
  · simp only [calculateMAE]
    rw [foldl_addf_init, zero_add]
    exact if_congr (by simp [List.length_eq_zero]) rfl rfl
  · simp only [calculateMAE]
    split_ifs with h
    · exact le_refl 0
    · apply round2_nonneg
      apply div_nonneg
      · rw [foldl_addf_init, zero_add]
        apply listSum_nonneg
        intro x hx
        simp only [List.mem_map] at hx
        obtain ⟨r, _, rfl⟩ := hx
        exact abs_nonneg _
      · positivity

/-! ### Concrete instantiations -/

/-- The split invariant instantiated at the concrete series for all
three models. -/
theorem actual_split_witness :
    SplitAt ((movingAveragePredict sampleData 2 3).getD []) 3
      (lastDate sampleData) ∧
    SplitAt ((exponentialSmoothingPredict sampleData (3/10) 3).getD []) 3
      (lastDate sampleData) ∧
    SplitAt ((arimaPredict sampleData 3 1 1 3).getD []) 3
      (lastDate sampleData) := by
  have h := actual_split sampleData 2 3 3 1 1 (3/10) (by decide)
  exact ⟨h.1 (by decide), h.2.1 (by decide), h.2.2 (by decide)⟩

/-- The portion-length contract instantiated at the concrete series. -/
theorem portion_lengths_witness :
    (((movingAveragePredict sampleData 2 3).getD []).countP
        (fun r => r.actual.isSome) = sampleData.length - 2 ∧
      ((movingAveragePredict sampleData 2 3).getD []).countP
        (fun r => r.actual.isNone) = 3) ∧
    (((exponentialSmoothingPredict sampleData (3/10) 3).getD []).countP
        (fun r => r.actual.isSome) = sampleData.length - 1 ∧
      ((exponentialSmoothingPredict sampleData (3/10) 3).getD []).countP
        (fun r => r.actual.isNone) = 3) ∧
    (((arimaPredict sampleData 3 1 1 3).getD []).countP
        (fun r => r.actual.isSome) = sampleData.length - (max 3 1 + 1) ∧
      ((arimaPredict sampleData 3 1 1 3).getD []).countP
        (fun r => r.actual.isNone) = 3) := by
  have h := portion_lengths sampleData 2 3 3 1 1 (3/10)
  exact ⟨h.1 (by decide), h.2.1 (by decide), h.2.2 (by decide)⟩

/-- The rolling-window characterization of the second moving-average
forecast entry at the concrete series. -/
theorem ma_forecast_rolling_window_witness :
    ((movingAveragePredict sampleData 2 2).getD []).getD
        (sampleData.length - 2 + 1) noResult =
      { date := getNextBusinessDay (lastDate sampleData) 2,
        actual := none,
        predicted := round2 (listMean (maWindow 2 (sampleData.map (·.close)) 1)),
        modelName := .movingAverage } :=
  ma_forecast_rolling_window sampleData 2 2 (by decide) (by decide) 1 (by decide)

/-- The one-step-ahead characterization of the first exponential-smoothing
backtest entry at the concrete series. -/
theorem es_backtest_one_step_ahead_witness :
    ((exponentialSmoothingPredict sampleData (3/10) 0).getD []).getD 0 noResult =
      { date := (sampleData.map (·.date)).getD 1 0,
        actual := some ((sampleData.map (·.close)).getD 1 0),
        predicted := round2 (esF (3/10) (sampleData.map (·.close)) 1),
        modelName := .exponentialSmoothing } :=
  (es_backtest_one_step_ahead sampleData (3/10) 0 (by decide)).1 1
    (by decide) (by decide)

/-- The ARIMA backtest characterization instantiated at the concrete
series (first backtest entry, and the full residual list). -/
theorem arima_backtest_spec_witness :
    ((arimaBacktest 3 1 (diffN 1 (sampleData.map (·.close)))).errors =
      specResiduals 3 1 (diffN 1 (sampleData.map (·.close)))
        (sampleData.length - 1 - max 3 1)) ∧
    ((arimaPredict sampleData 3 1 1 0).getD []).getD 0 noResult =
      { date := (sampleData.map (·.date)).getD (max 3 1 + 1 + 0) 0,
        actual := some ((sampleData.map (·.close)).getD (max 3 1 + 1 + 0) 0),
        predicted := round2
          (specPred 3 1 (diffN 1 (sampleData.map (·.close))) 0
            (specResiduals 3 1 (diffN 1 (sampleData.map (·.close))) 0) +
           (sampleData.map (·.close)).getD (max 3 1 + 0) 0),
        modelName := .arima } := by
  have h := arima_backtest_spec sampleData 3 1 0 (by decide)
  exact ⟨h.1, h.2 0 (by decide)⟩

/-- The 7-business-day forecast-date property instantiated at the
concrete series. -/
theorem forecast_seven_business_days_witness :
    (0 < nextBusinessDay1 0 ∧ nextBusinessDay1 0 ≤ 5) ∧
    FcDates ((movingAveragePredict sampleData 2 7).getD [])
      (lastDate sampleData) ∧
    FcDates ((exponentialSmoothingPredict sampleData (3/10) 7).getD [])
      (lastDate sampleData) ∧
    FcDates ((arimaPredict sampleData 3 1 1 7).getD [])
      (lastDate sampleData) := by
  have h := forecast_seven_business_days sampleData 2 3 1 1 (3/10)
  exact ⟨⟨(h.1 0).1, (h.1 0).2.2 5 (by decide) (by decide)⟩,
    h.2.1 (by decide), h.2.2.1 (by decide), h.2.2.2 (by decide)⟩

/-- The selector facts instantiated with three identical prediction
records (all three MAEs coincide, so the tie-break fires). -/
theorem determineBestModel_spec_witness :
    ((determineBestModel fun _ => scenarioAResults).2
        (determineBestModel fun _ => scenarioAResults).1).1 ≤
      ((determineBestModel fun _ => scenarioAResults).2 .arima).1 ∧
    modelIdx (determineBestModel fun _ => scenarioAResults).1 ≤
      modelIdx .arima := by
  have h := determineBestModel_spec fun _ => scenarioAResults
  refine ⟨h.1 .arima, h.2.1 .arima ?_⟩
  rw [h.2.2 .arima, h.2.2 (determineBestModel fun _ => scenarioAResults).1]

/-- The MAE facts instantiated at the Scenario A results. -/
theorem calculateMAE_spec_witness :
    0 ≤ calculateMAE scenarioAResults ∧
    (scenarioAResults.getD 0 noResult).predicted = 100 := by
  have h := calculateMAE_spec scenarioAResults
  exact ⟨h.2.1, h.2.2.1 _ (by with_unfolding_all decide)⟩

end PricePulse
